import Mathlib

/-!
Shallow embedding of the Lazada crawler (src/lazada-crawler.ts) in Lean 4.

Strings are modelled as Lean `String` (a list of characters); JavaScript
string primitives used by the source are embedded as `js*` helpers below.
JS `\s` (whitespace class) is modelled by `Char.isWhitespace`; `\d` by
`Char.isDigit`.  JS truthiness of a string is `s ≠ ""`.
-/

namespace Lazada

/-- Models JS `s.startsWith(p)`. -/
def jsStartsWith (s p : String) : Bool := p.toList.isPrefixOf s.toList

/-- `listInfix p l` decides whether `p` occurs as a contiguous run in `l`. -/
def listInfix (p : List Char) : List Char → Bool
  | [] => p.isPrefixOf []
  | c :: rest => p.isPrefixOf (c :: rest) || listInfix p rest

/-- Models JS `s.includes(p)` (substring containment). -/
def jsIncludes (s p : String) : Bool := listInfix p.toList s.toList

/-- Models JS `s.trim()`: strip leading and trailing whitespace. -/
def jsTrim (s : String) : String :=
  ⟨((s.toList.dropWhile Char.isWhitespace).reverse.dropWhile Char.isWhitespace).reverse⟩

/-- Models JS `s.split('?')[0]`: the characters before the first `?`. -/
def jsSplitQ (s : String) : String := ⟨s.toList.takeWhile (fun c => c ≠ '?')⟩

/-- Models JS `a || b` on strings (first operand when truthy, i.e. nonempty). -/
def jsOr (a b : String) : String := if a ≠ "" then a else b

/-!  ## LinkDiscoverer: `getProductLinks` (lazada-crawler.ts lines 143-186)

A parsed listing page is modelled by the list of href strings each selector
strategy yields, in DOM order (`strategies : List (List String)`).  The
mutable `links` array and `seen` set are threaded explicitly; `seen` is a
list used only through membership. -/

/-- URL normalisation inside the `each` callback (lines 159-168): absolutise
protocol-relative, site-relative and bare-relative hrefs. -/
def normalizeHref (href : String) : String :=
  if jsStartsWith href "//" then "https:" ++ href
  else if jsStartsWith href "/" then "https://www.lazada.vn" ++ href
  else if ¬ jsStartsWith href "http" then "https://www.lazada.vn/" ++ href
  else href

/-- The canonical dedup key (lines 159-171): normalise the href, then
strip everything after the first `?`. -/
def canonicalUrl (href : String) : String := jsSplitQ (normalizeHref href)

/-- The body of the `each` callback (lines 157-177): filter by the
product-path predicate, normalise, strip the query, dedup via `seen`. -/
def addHref (st : List String × List String) (href : String) :
    List String × List String :=
  let links := st.1
  let seen := st.2
  if href ≠ "" ∧ jsIncludes href "/products/" ∧ href ∉ seen then
    let cleanUrl := canonicalUrl href
    if cleanUrl ∉ seen ∧ jsIncludes cleanUrl "/products/" then
      (links ++ [cleanUrl], seen ++ [cleanUrl])
    else (links, seen)
  else (links, seen)

/-- The `for (const selector of selectors)` loop (lines 155-181): process a
whole strategy, then break once `links.length >= maxProducts`. -/
def strategyLoop (maxProducts : Nat) :
    List (List String) → List String × List String → List String × List String
  | [], st => st
  | sel :: rest, st =>
    let st' := sel.foldl addHref st
    if maxProducts ≤ st'.1.length then st' else strategyLoop maxProducts rest st'

/-- Models `getProductLinks` (lines 143-186): run the strategies from the empty
state and truncate with `links.slice(0, maxProducts)`. -/
def getProductLinks (strategies : List (List String)) (maxProducts : Nat) :
    List String :=
  (strategyLoop maxProducts strategies ([], [])).1.take maxProducts

/-!  ## PageExtractor field functions -/

/-- The fixed selector priority order of `getTitle` (line 200). -/
def titleSelectors : List String :=
  [".pdp-product-title", "h1", ".pdp-mod-product-badge-title"]

/-- The acceptance test of `getTitle` (line 204): JS `title && title.length > 10`. -/
def titleOk (t : String) : Bool := t ≠ "" ∧ t.length > 10

/-- The `for (const selector of selectors)` loop inside `getTitle`. -/
def titleLoop (selText : String → String) : List String → String
  | [] => ""
  | sel :: rest =>
    let title := jsTrim (selText sel)
    if titleOk title then title else titleLoop selText rest

/-- Models `getTitle` (lines 197-213).  `selText sel` is the raw text of
`$(sel).first()` on the parsed page. -/
def getTitle (selText : String → String) : String :=
  titleLoop selText titleSelectors

/-- Models the replace of regex Rp-or-currency-or-separator (lines 229 and
234): remove the two-char run `Rp`, the currency sign, commas, dots and
whitespace. -/
def stripPriceRp : List Char → List Char
  | [] => []
  | 'R' :: 'p' :: rest => stripPriceRp rest
  | c :: rest =>
    if c = '₫' ∨ c = ',' ∨ c = '.' ∨ c.isWhitespace then stripPriceRp rest
    else c :: stripPriceRp rest

/-- Models the replace of regex currency-or-separator followed by trim
(lines 246 and 250): strip currency sign, thousands separators and
whitespace. -/
def stripPrice (s : String) : String :=
  jsTrim ⟨s.toList.filter (fun c => ¬ (c = '₫' ∨ c = ',' ∨ c = '.' ∨ c.isWhitespace))⟩

/-- Character class `[\d\.,]` of the price pattern (line 243). -/
def isNumCh (c : Char) : Bool := c.isDigit ∨ c = '.' ∨ c = ','

/-- Models `priceText.match` with the global currency-price regex
(line 243): left-to-right global matching of the pattern digits-dots-commas
(one or more, greedy) then optional whitespace then the currency sign.
On a failed attempt the scan advances one character; a successful match
resumes after the matched text, as the JS regex `lastIndex` does. -/
def priceMatchesAux : Nat → List Char → List (List Char)
  | 0, _ => []
  | _, [] => []
  | fuel + 1, c :: rest =>
    if isNumCh c then
      let digits := (c :: rest).takeWhile isNumCh
      let sp := ((c :: rest).dropWhile isNumCh).takeWhile Char.isWhitespace
      match ((c :: rest).dropWhile isNumCh).dropWhile Char.isWhitespace with
      | '₫' :: r3 => (digits ++ sp ++ ['₫']) :: priceMatchesAux fuel r3
      | _ => priceMatchesAux fuel rest
    else priceMatchesAux fuel rest

/-- The scan of the whole text.  Each recursion step of `priceMatchesAux`
shortens the remaining text by at least one character, so fuel equal to
the text length makes the fuel bound unreachable. -/
def priceMatches (l : List Char) : List (List Char) := priceMatchesAux l.length l

structure Prices where
  regularPrice : String
  salePrice : String
  deriving Repr, DecidableEq

/-- Models `getPrices` (lines 218-259).  `originBlockText` and `salePriceElText`
are the texts of the price container's structured sub-elements,
`genericPriceText` the text of the first element whose class mentions
"price". -/
def getPrices (originBlockText salePriceElText genericPriceText : String) : Prices :=
  let regularPrice := if originBlockText ≠ "" then jsTrim ⟨stripPriceRp originBlockText.toList⟩ else ""
  let salePrice := if salePriceElText ≠ "" then jsTrim ⟨stripPriceRp salePriceElText.toList⟩ else ""
  if regularPrice = "" ∧ salePrice = "" then
    let ms := priceMatches genericPriceText.toList
    match ms with
    | [] => ⟨regularPrice, salePrice⟩
    | m0 :: ms' =>
      let salePrice := stripPrice ⟨m0⟩
      match ms' with
      | [] => ⟨regularPrice, salePrice⟩
      | m1 :: _ => ⟨stripPrice ⟨m1⟩, salePrice⟩
  else ⟨regularPrice, salePrice⟩

/-- Models `getDeliveryTime` (lines 264-271): trimmed text, `|| ''`. -/
def getDeliveryTime (deliveryText : String) : String :=
  jsOr (jsTrim deliveryText) ""

/-- Models the replace of regex dash-space on a description paragraph
(line 282): removes every dash-space two-char run. -/
def removeDashSpace : List Char → List Char
  | [] => []
  | '-' :: ' ' :: rest => removeDashSpace rest
  | c :: rest => c :: removeDashSpace rest

/-- Per-paragraph cleanup of `getDescription` (line 282): drop newline
characters, drop dash-space runs, then trim. -/
def cleanPara (s : String) : String :=
  jsTrim ⟨removeDashSpace (s.toList.filter (fun c => c ≠ '\n'))⟩

/-- Models `getDescription` (lines 276-292): keep nonempty cleaned paragraphs and
join with `", "`. -/
def getDescription (paragraphs : List String) : String :=
  String.intercalate ", " ((paragraphs.map cleanPara).filter (fun t => t ≠ ""))

/-!  ## Structured-data fallback: `getJsonLdData` (lines 297-370)

The parsed JSON-LD block is modelled by `JsonLdRaw`; `Option JsonLdRaw`
captures an absent script element or a `JSON.parse` failure (`none`), in
which case every result field keeps its default.  A field holding `""`
models a missing or falsy JSON property (the code only tests truthiness).
The `image` property may be a plain string or an array. -/

structure JsonLdRaw where
  name : String
  description : String
  sku : String
  image : Option (String ⊕ List String)
  availability : String
  price : String
  deriving Repr, DecidableEq

structure JsonLdResult where
  name : String
  description : String
  productId : String
  imageUrl : String
  stock : String
  priceFromJson : String
  deriving Repr, DecidableEq

/-- The defaults installed at lines 305-312 before parsing. -/
def jsonLdDefault : JsonLdResult :=
  { name := "", description := "", productId := "", imageUrl := ""
    stock := "0", priceFromJson := "" }

/-- The image normalisation of lines 336-350: pick the string or the first
array element, then prefix the scheme when not already absolute. -/
def jsonLdImage : Option (String ⊕ List String) → String
  | none => ""
  | some img =>
    let imageUrl :=
      match img with
      | Sum.inl s => s
      | Sum.inr l => if l.length > 0 then l.headD "" else ""
    if imageUrl ≠ "" then
      if jsStartsWith imageUrl "http" then imageUrl else "https:" ++ imageUrl
    else ""

/-- Models `getJsonLdData` (lines 297-370). -/
def getJsonLdData (parsed : Option JsonLdRaw) : JsonLdResult :=
  match parsed with
  | none => jsonLdDefault
  | some jd =>
    { name := if jd.name ≠ "" then jd.name else ""
      description := if jd.description ≠ "" then jd.description else ""
      productId := if jd.sku ≠ "" then jd.sku else ""
      imageUrl := jsonLdImage jd.image
      stock :=
        if jd.availability ≠ "" then
          if jsIncludes jd.availability "InStock" ∨
             jsIncludes jd.availability "LimitedAvailability" then "1" else "0"
        else "0"
      priceFromJson := if jd.price ≠ "" then jd.price else "" }

/-!  ## CaptchaGuard: `detectCaptcha` / `handleCaptcha` (lines 49-84)

Time is modelled by the elapsed-milliseconds counter the loop condition
reads; `detect i` is the result of the `i`-th `detectCaptcha` poll inside
the wait loop, and `delays i` the `i`-th randomized sleep, which the source
draws uniformly from 2-3 seconds (`this.delay(2, 3)`), hence the bundled
2000-3000 ms bound.  The returned `Nat` counts the polls performed (pure
instrumentation; the source returns void). -/

/-- Models the `while (Date.now() - startTime < maxWaitTime)` loop of
`handleCaptcha` (lines 69-83): sleep, poll, return once clear, throw
`CAPTCHA solving timeout` when the 60 s deadline has passed. -/
def captchaWait (detect : Nat → Bool) (delays : Nat → {n : Nat // 2000 ≤ n ∧ n ≤ 3000})
    (i elapsed : Nat) : Except String Nat :=
  if elapsed < 60000 then
    let elapsed' := elapsed + (delays i).1
    if detect i then captchaWait detect delays (i + 1) elapsed'
    else Except.ok (i + 1)
  else Except.error "CAPTCHA solving timeout"
termination_by 60000 - elapsed
decreasing_by
  have h2000 := (delays i).2.1
  omega

/-- The caller-side guard (lines 394-397 and 123-126): `detectCaptcha`
once, and only when it reports a captcha enter `handleCaptcha`.  `ok n`
means the page may be processed after `n` polls of the wait loop. -/
def ensureNoCaptcha (first : Bool) (detect : Nat → Bool)
    (delays : Nat → {n : Nat // 2000 ≤ n ∧ n ≤ 3000}) : Except String Nat :=
  if first then captchaWait detect delays 0 0 else Except.ok 0

/-!  ## `crawlProduct` (lines 375-454) and the session loops -/

structure LazadaProduct where
  pdp_url : String
  pdp_title_value : String
  price_rp : String
  price_sp : String
  delivery_time : String
  pdp_desc_value : String
  web_pid : String
  vosa : String
  pdp_image_url : String
  pdp_image_count : String
  crawledAt : String
  execution_time : Nat
  category : Option String := none
  deriving Repr, DecidableEq

/-- The record assembly of `crawlProduct` (lines 425-443): JSON-LD
fallbacks for title, description and regular price, then the literal
`LazadaProduct` construction. -/
def mkProduct (url title regularPrice salePrice deliveryTime description : String)
    (jsonLdData : JsonLdResult) (crawledAt : String) (executionTime : Nat) :
    LazadaProduct :=
  let finalTitle := jsOr title jsonLdData.name
  let finalDescription := jsOr description jsonLdData.description
  let finalRegularPrice := jsOr regularPrice jsonLdData.priceFromJson
  { pdp_url := url
    pdp_title_value := finalTitle
    price_rp := finalRegularPrice
    price_sp := salePrice
    delivery_time := deliveryTime
    pdp_desc_value := finalDescription
    web_pid := jsonLdData.productId
    vosa := jsonLdData.stock
    pdp_image_url := jsonLdData.imageUrl
    pdp_image_count := if jsonLdData.imageUrl ≠ "" then "1" else "0"
    crawledAt := crawledAt
    execution_time := executionTime }

/-- One product page as `crawlProduct` observes it: navigation outcome,
captcha detection trace, root marker, and the selector texts the extraction
functions read. -/
structure PageEnv where
  navOk : Bool
  captchaFirst : Bool
  captchaDetect : Nat → Bool
  captchaDelays : Nat → {n : Nat // 2000 ≤ n ∧ n ≤ 3000}
  hasRoot : Bool
  selText : String → String
  originBlockText : String
  salePriceElText : String
  genericPriceText : String
  deliveryText : String
  descParagraphs : List String
  jsonLd : Option JsonLdRaw

/-- Models `crawlProduct` (lines 375-454): any failure inside the `try`
(navigation, captcha timeout, missing `#root` shell) is caught at line 450
and surfaces as `none`; otherwise the extracted record is returned. -/
def crawlProduct (env : PageEnv) (url crawledAt : String) (executionTime : Nat) :
    Option LazadaProduct :=
  if env.navOk = false then none
  else
    match ensureNoCaptcha env.captchaFirst env.captchaDetect env.captchaDelays with
    | Except.error _ => none
    | Except.ok _ =>
      if env.hasRoot = false then none
      else
        let title := getTitle env.selText
        let prices := getPrices env.originBlockText env.salePriceElText env.genericPriceText
        let deliveryTime := getDeliveryTime env.deliveryText
        let description := getDescription env.descParagraphs
        let jsonLdData := getJsonLdData env.jsonLd
        some (mkProduct url title prices.regularPrice prices.salePrice
          deliveryTime description jsonLdData crawledAt executionTime)

/-!  ## Session loops: `crawlByUrls` (lines 514-577), `crawlCategory`
(lines 459-509), `crawlByCategories` (lines 582-635)

The class state `results` / `failedUrls` is threaded as a pair.  The
per-target crawl is abstracted as `crawl : String → Option LazadaProduct`
(instantiated with `crawlProduct` of a per-URL page environment); link
discovery as `discover : Category → List String` (the `getProductLinks`
output for the category page).  A session-level fatal error — the only
thing the outer `try`/`catch` of the two entry points can absorb — is
modelled by `fatalAfter : Option Nat`: `some k` aborts after `k` targets
and skips `saveResults`. -/

structure Category where
  name : String
  url : String
  maxProducts : Option Nat := none
  deriving Repr, DecidableEq

/-- The per-target recording step shared by both loops (lines 552-556 and
486-492): a produced record is appended to `results`, otherwise the raw
URL is appended to `failedUrls`. -/
def recordOutcome (st : List LazadaProduct × List String) (url : String)
    (outcome : Option LazadaProduct) : List LazadaProduct × List String :=
  match outcome with
  | some p => (st.1 ++ [p], st.2)
  | none => (st.1, st.2 ++ [url])

/-- The `for` loop of `crawlByUrls` (lines 547-564). -/
def crawlUrlsLoop (crawl : String → Option LazadaProduct) (urls : List String)
    (st : List LazadaProduct × List String) : List LazadaProduct × List String :=
  urls.foldl (fun st u => recordOutcome st u (crawl u)) st

/-- The tagging `product.category = category.name` (line 487). -/
def tagCategory (label : String) (p : LazadaProduct) : LazadaProduct :=
  { p with category := some label }

/-- Models `crawlCategory` (lines 459-509): discover the links, return the
state unchanged when none were found, otherwise crawl each link, tagging
successes with the category name. -/
def crawlCategoryRun (crawl : String → Option LazadaProduct)
    (discover : Category → List String) (st : List LazadaProduct × List String)
    (cat : Category) : List LazadaProduct × List String :=
  let productLinks := discover cat
  if productLinks.length = 0 then st
  else productLinks.foldl
    (fun st u => recordOutcome st u ((crawl u).map (tagCategory cat.name))) st

/-- The `for (const category of categories)` loop (lines 616-622). -/
def crawlCategoriesLoop (crawl : String → Option LazadaProduct)
    (discover : Category → List String) (cats : List Category)
    (st : List LazadaProduct × List String) : List LazadaProduct × List String :=
  cats.foldl (crawlCategoryRun crawl discover) st

structure SessionResult where
  results : List LazadaProduct
  failed : List String
  saved : Bool
  deriving Repr

/-- Models `crawlByUrls` (lines 514-577): run the loop over all URLs, then
`saveResults` (line 569); a session-level fatal after `k` targets jumps to
the `catch` (line 571), skipping `saveResults`. -/
def crawlByUrls (crawl : String → Option LazadaProduct) (urls : List String)
    (fatalAfter : Option Nat) : SessionResult :=
  match fatalAfter with
  | none =>
    let st := crawlUrlsLoop crawl urls ([], [])
    ⟨st.1, st.2, true⟩
  | some k =>
    let st := crawlUrlsLoop crawl (urls.take k) ([], [])
    ⟨st.1, st.2, false⟩

/-- Models `crawlByCategories` (lines 582-635): same shape in category
mode, with the fatal point counted in categories. -/
def crawlByCategories (crawl : String → Option LazadaProduct)
    (discover : Category → List String) (cats : List Category)
    (fatalAfter : Option Nat) : SessionResult :=
  match fatalAfter with
  | none =>
    let st := crawlCategoriesLoop crawl discover cats ([], [])
    ⟨st.1, st.2, true⟩
  | some k =>
    let st := crawlCategoriesLoop crawl discover (cats.take k) ([], [])
    ⟨st.1, st.2, false⟩

/-- The number of targets attempted in category mode: the discovered links
of every category. -/
def discoveredCount (discover : Category → List String) (cats : List Category) : Nat :=
  (cats.map (fun c => (discover c).length)).sum

/-!  ## Lemmas about link discovery -/

/-- Invariant of the `links` / `seen` pair: the accumulated links are
duplicate-free, each one registered in `seen`, and each one query-free. -/
def LinkInv (st : List String × List String) : Prop :=
  st.1.Nodup ∧ (∀ u ∈ st.1, u ∈ st.2) ∧ (∀ u ∈ st.1, jsSplitQ u = u)

theorem takeWhile_eq_self_of_all {α : Type} (p : α → Bool) :
    ∀ l : List α, (∀ x ∈ l, p x = true) → l.takeWhile p = l := by
  intro l h
  exact List.takeWhile_eq_self_iff.mpr h

theorem takeWhile_idem {α : Type} (p : α → Bool) :
    ∀ l : List α, (l.takeWhile p).takeWhile p = l.takeWhile p := by
  intro l
  induction l with
  | nil => rfl
  | cons a t ih =>
    by_cases h : p a
    · simp [List.takeWhile_cons, h, ih]
    · simp [List.takeWhile_cons, h]

theorem jsSplitQ_idem (s : String) : jsSplitQ (jsSplitQ s) = jsSplitQ s := by
  unfold jsSplitQ
  exact congrArg String.mk (takeWhile_idem _ _)

theorem canonicalUrl_query_free (href : String) :
    jsSplitQ (canonicalUrl href) = canonicalUrl href := jsSplitQ_idem _

theorem addHref_inv (st : List String × List String) (href : String)
    (h : LinkInv st) : LinkInv (addHref st href) := by
  obtain ⟨hnd, hsub, hqf⟩ := h
  simp only [addHref]
  split
  · split
    · rename_i hin
      refine ⟨?_, ?_, ?_⟩
      · have hnotmem : canonicalUrl href ∉ st.1 := fun hm => hin.1 (hsub _ hm)
        simp only [List.nodup_append, List.nodup_cons, List.nodup_nil]
        exact ⟨hnd, ⟨by simp, trivial⟩, by
          intro a ha hb
          simp at hb
          exact hnotmem (hb ▸ ha)⟩
      · intro u hu
        rcases List.mem_append.mp hu with h1 | h1
        · exact List.mem_append.mpr (Or.inl (hsub _ h1))
        · exact List.mem_append.mpr (Or.inr h1)
      · intro u hu
        rcases List.mem_append.mp hu with h1 | h1
        · exact hqf _ h1
        · simp at h1
          rw [h1]
          exact canonicalUrl_query_free href
    · exact ⟨hnd, hsub, hqf⟩
  · exact ⟨hnd, hsub, hqf⟩

theorem foldl_addHref_inv (sel : List String) :
    ∀ st, LinkInv st → LinkInv (sel.foldl addHref st) := by
  induction sel with
  | nil => intro st h; simpa using h
  | cons a t ih =>
    intro st h
    rw [List.foldl_cons]
    exact ih _ (addHref_inv st a h)

theorem strategyLoop_inv (maxProducts : Nat) (strategies : List (List String)) :
    ∀ st, LinkInv st → LinkInv (strategyLoop maxProducts strategies st) := by
  induction strategies with
  | nil => intro st h; simpa [strategyLoop] using h
  | cons sel rest ih =>
    intro st h
    rw [strategyLoop]
    split
    · exact foldl_addHref_inv sel st h
    · exact ih _ (foldl_addHref_inv sel st h)

/-- C2: for every parsed listing page (selector strategies), listing URL and
cap, `getProductLinks` returns a sequence with no two equal canonical
(query-stripped) URLs — its elements are already query-stripped and
pairwise distinct — of length at most the cap; strategy iteration stops as
soon as the accumulated count reaches the cap, and excess results are
truncated to exactly cap elements. -/
theorem getProductLinks_dedup_cap (strategies : List (List String)) (cap : Nat) :
    (getProductLinks strategies cap).Nodup
    ∧ (getProductLinks strategies cap).length ≤ cap
    ∧ (∀ u ∈ getProductLinks strategies cap, jsSplitQ u = u)
    ∧ (∀ (sel : List String) (rest : List (List String)) (st : List String × List String),
        cap ≤ (sel.foldl addHref st).1.length →
        strategyLoop cap (sel :: rest) st = sel.foldl addHref st)
    ∧ (cap ≤ (strategyLoop cap strategies ([], [])).1.length →
        (getProductLinks strategies cap).length = cap) := by
  have hinv : LinkInv (strategyLoop cap strategies ([], [])) :=
    strategyLoop_inv cap strategies ([], [])
      ⟨List.nodup_nil, by intro u hu; simp at hu, by intro u hu; simp at hu⟩
  refine ⟨?_, ?_, ?_, ?_, ?_⟩
  · exact (List.take_sublist cap _).nodup hinv.1
  · unfold getProductLinks
    rw [List.length_take]
    exact Nat.min_le_left _ _
  · intro u hu
    exact hinv.2.2 u (List.take_subset cap _ hu)
  · intro sel rest st h
    rw [strategyLoop]
    simp [h]
  · intro h
    unfold getProductLinks
    rw [List.length_take]
    omega

theorem getProductLinks_dedup_cap_witness :
    ((2 : Nat) ≤ (([("/products/a?q=1" : String), "//x.com/products/b",
        "/products/a"].foldl addHref (([], []) : List String × List String)).1.length)
    ∧ strategyLoop 2 [["/products/a?q=1", "//x.com/products/b", "/products/a"],
        [("/products/d" : String)]] ([], [])
      = ["/products/a?q=1", "//x.com/products/b",
        "/products/a"].foldl addHref ([], []))
    ∧ getProductLinks [["/products/a?q=1", "//x.com/products/b", "/products/a"],
        [("/products/d" : String)]] 2
      = ["https://www.lazada.vn/products/a", "https://x.com/products/b"] := by
  refine ⟨⟨by decide, (getProductLinks_dedup_cap
    [["/products/a?q=1", "//x.com/products/b", "/products/a"], ["/products/d"]] 2).2.2.2.1
    _ [["/products/d"]] ([], []) (by decide)⟩, by decide⟩

/-- C8: normalization of an href during link discovery is the identity on
already-absolute (starting with "http"), query-free hrefs, hence
idempotent on its fixed points. -/
theorem canonicalUrl_idempotent_on_absolute (href : String)
    (h1 : jsStartsWith href "http" = true)
    (h2 : '?' ∉ href.toList) :
    canonicalUrl href = href := by
  obtain ⟨l, hl⟩ : ∃ l, href.toList = 'h' :: l := by
    unfold jsStartsWith at h1
    rw [show "http".toList = ['h', 't', 't', 'p'] from rfl] at h1
    cases hc : href.toList with
    | nil => rw [hc] at h1; simp [List.isPrefixOf] at h1
    | cons a t =>
      rw [hc] at h1
      simp [List.isPrefixOf] at h1
      exact ⟨t, by rw [h1.1]⟩
  have hs2 : jsStartsWith href "//" = false := by
    unfold jsStartsWith
    rw [show "//".toList = ['/', '/'] from rfl, hl]
    simp [List.isPrefixOf, show ('/' == 'h') = false from rfl]
  have hs3 : jsStartsWith href "/" = false := by
    unfold jsStartsWith
    rw [show "/".toList = ['/'] from rfl, hl]
    simp [List.isPrefixOf, show ('/' == 'h') = false from rfl]
  have hn : normalizeHref href = href := by
    unfold normalizeHref
    rw [hs2, hs3, h1]
    simp
  have he : href.toList.takeWhile (fun c => c ≠ '?') = href.toList := by
    apply takeWhile_eq_self_of_all
    intro x hx
    simp only [ne_eq, decide_eq_true_eq]
    intro hq
    exact h2 (hq ▸ hx)
  unfold canonicalUrl
  rw [hn]
  unfold jsSplitQ
  rw [he]
  rfl

theorem canonicalUrl_idempotent_witness :
    (jsStartsWith "https://www.lazada.vn/products/abc" "http" = true
      ∧ '?' ∉ "https://www.lazada.vn/products/abc".toList)
    ∧ canonicalUrl "https://www.lazada.vn/products/abc"
      = "https://www.lazada.vn/products/abc" :=
  ⟨⟨by decide, by decide⟩,
    canonicalUrl_idempotent_on_absolute "https://www.lazada.vn/products/abc"
      (by decide) (by decide)⟩

/-!  ## Lemmas about the session loops -/

theorem recordOutcome_length (st : List LazadaProduct × List String) (url : String)
    (outcome : Option LazadaProduct) :
    (recordOutcome st url outcome).1.length + (recordOutcome st url outcome).2.length
      = st.1.length + st.2.length + 1 := by
  cases outcome <;> simp [recordOutcome] <;> omega

theorem recordOutcome_prefix (st : List LazadaProduct × List String) (url : String)
    (outcome : Option LazadaProduct) :
    st.1 <+: (recordOutcome st url outcome).1 ∧ st.2 <+: (recordOutcome st url outcome).2 := by
  cases outcome <;> simp [recordOutcome]

theorem crawlUrlsLoop_length (crawl : String → Option LazadaProduct) :
    ∀ (urls : List String) (st : List LazadaProduct × List String),
      (crawlUrlsLoop crawl urls st).1.length + (crawlUrlsLoop crawl urls st).2.length
        = st.1.length + st.2.length + urls.length := by
  intro urls
  induction urls with
  | nil => intro st; simp [crawlUrlsLoop]
  | cons u rest ih =>
    intro st
    have hstep : crawlUrlsLoop crawl (u :: rest) st
        = crawlUrlsLoop crawl rest (recordOutcome st u (crawl u)) := by
      simp [crawlUrlsLoop]
    rw [hstep, ih]
    have := recordOutcome_length st u (crawl u)
    simp only [List.length_cons]
    omega

theorem crawlUrlsLoop_prefix (crawl : String → Option LazadaProduct) :
    ∀ (urls : List String) (st : List LazadaProduct × List String),
      st.1 <+: (crawlUrlsLoop crawl urls st).1 ∧ st.2 <+: (crawlUrlsLoop crawl urls st).2 := by
  intro urls
  induction urls with
  | nil => intro st; simp [crawlUrlsLoop]
  | cons u rest ih =>
    intro st
    have hstep : crawlUrlsLoop crawl (u :: rest) st
        = crawlUrlsLoop crawl rest (recordOutcome st u (crawl u)) := by
      simp [crawlUrlsLoop]
    rw [hstep]
    have h1 := recordOutcome_prefix st u (crawl u)
    have h2 := ih (recordOutcome st u (crawl u))
    exact ⟨h1.1.trans h2.1, h1.2.trans h2.2⟩

theorem crawlUrlsLoop_failed (crawl : String → Option LazadaProduct) :
    ∀ (urls : List String) (st : List LazadaProduct × List String),
      (crawlUrlsLoop crawl urls st).2
        = st.2 ++ urls.filter (fun u => (crawl u).isNone) := by
  intro urls
  induction urls with
  | nil => intro st; simp [crawlUrlsLoop]
  | cons u rest ih =>
    intro st
    have hstep : crawlUrlsLoop crawl (u :: rest) st
        = crawlUrlsLoop crawl rest (recordOutcome st u (crawl u)) := by
      simp [crawlUrlsLoop]
    rw [hstep, ih]
    cases hc : crawl u <;> simp [recordOutcome, List.filter_cons, hc]

theorem crawlCategoryRun_eq_loop (crawl : String → Option LazadaProduct)
    (discover : Category → List String) (st : List LazadaProduct × List String)
    (cat : Category) :
    crawlCategoryRun crawl discover st cat
      = crawlUrlsLoop (fun u => (crawl u).map (tagCategory cat.name)) (discover cat) st := by
  simp only [crawlCategoryRun, crawlUrlsLoop]
  split
  · rename_i h0
    have : discover cat = [] := List.eq_nil_of_length_eq_zero h0
    rw [this]
    rfl
  · rfl

theorem crawlCategoriesLoop_length (crawl : String → Option LazadaProduct)
    (discover : Category → List String) :
    ∀ (cats : List Category) (st : List LazadaProduct × List String),
      (crawlCategoriesLoop crawl discover cats st).1.length
        + (crawlCategoriesLoop crawl discover cats st).2.length
        = st.1.length + st.2.length + discoveredCount discover cats := by
  intro cats
  induction cats with
  | nil => intro st; simp [crawlCategoriesLoop, discoveredCount]
  | cons c rest ih =>
    intro st
    have hstep : crawlCategoriesLoop crawl discover (c :: rest) st
        = crawlCategoriesLoop crawl discover rest (crawlCategoryRun crawl discover st c) := by
      simp [crawlCategoriesLoop]
    rw [hstep, ih]
    have h1 : (crawlCategoryRun crawl discover st c).1.length
        + (crawlCategoryRun crawl discover st c).2.length
        = st.1.length + st.2.length + (discover c).length := by
      rw [crawlCategoryRun_eq_loop]
      exact crawlUrlsLoop_length _ _ _
    simp only [discoveredCount, List.map_cons, List.sum_cons]
    simp only [discoveredCount] at *
    omega

theorem crawlCategoriesLoop_prefix (crawl : String → Option LazadaProduct)
    (discover : Category → List String) :
    ∀ (cats : List Category) (st : List LazadaProduct × List String),
      st.1 <+: (crawlCategoriesLoop crawl discover cats st).1
        ∧ st.2 <+: (crawlCategoriesLoop crawl discover cats st).2 := by
  intro cats
  induction cats with
  | nil => intro st; simp [crawlCategoriesLoop]
  | cons c rest ih =>
    intro st
    have hstep : crawlCategoriesLoop crawl discover (c :: rest) st
        = crawlCategoriesLoop crawl discover rest (crawlCategoryRun crawl discover st c) := by
      simp [crawlCategoriesLoop]
    rw [hstep]
    have h1 : st.1 <+: (crawlCategoryRun crawl discover st c).1
        ∧ st.2 <+: (crawlCategoryRun crawl discover st c).2 := by
      rw [crawlCategoryRun_eq_loop]
      exact crawlUrlsLoop_prefix _ _ _
    have h2 := ih (crawlCategoryRun crawl discover st c)
    exact ⟨h1.1.trans h2.1, h1.2.trans h2.2⟩

/-- C1: at the end of a session's target list, in URL mode the number of
successes plus the number of failures equals the number of URLs attempted,
and in category mode it equals the total number of links discovered across
all categories; each attempted target contributes exactly one entry and the
batch is append-only (the previous state is always a prefix of the new
one). -/
theorem batch_accounting :
    (∀ (crawl : String → Option LazadaProduct) (urls : List String),
      (crawlUrlsLoop crawl urls ([], [])).1.length
        + (crawlUrlsLoop crawl urls ([], [])).2.length = urls.length)
    ∧ (∀ (crawl : String → Option LazadaProduct) (discover : Category → List String)
        (cats : List Category),
      (crawlCategoriesLoop crawl discover cats ([], [])).1.length
        + (crawlCategoriesLoop crawl discover cats ([], [])).2.length
        = discoveredCount discover cats)
    ∧ (∀ (st : List LazadaProduct × List String) (url : String)
        (outcome : Option LazadaProduct),
      (recordOutcome st url outcome).1.length + (recordOutcome st url outcome).2.length
        = st.1.length + st.2.length + 1)
    ∧ (∀ (crawl : String → Option LazadaProduct) (urls : List String)
        (st : List LazadaProduct × List String),
      st.1 <+: (crawlUrlsLoop crawl urls st).1 ∧ st.2 <+: (crawlUrlsLoop crawl urls st).2)
    ∧ (∀ (crawl : String → Option LazadaProduct) (discover : Category → List String)
        (cats : List Category) (st : List LazadaProduct × List String),
      st.1 <+: (crawlCategoriesLoop crawl discover cats st).1
        ∧ st.2 <+: (crawlCategoriesLoop crawl discover cats st).2) := by
  refine ⟨?_, ?_, recordOutcome_length, crawlUrlsLoop_prefix, crawlCategoriesLoop_prefix⟩
  · intro crawl urls
    have := crawlUrlsLoop_length crawl urls ([], [])
    simpa using this
  · intro crawl discover cats
    have := crawlCategoriesLoop_length crawl discover cats ([], [])
    simpa using this

/-- C6: every per-target failure is recorded as a failure-list entry
holding the original URL (the failure list is exactly the attempted URLs
whose crawl produced no record, in order); a session that exhausts its
target list always reaches persistence, in both modes, even if every
target failed; only a session-level fatal error skips persistence. -/
theorem per_target_errors_isolated_persistence :
    (∀ (crawl : String → Option LazadaProduct) (urls : List String),
      (crawlByUrls crawl urls none).saved = true)
    ∧ (∀ (crawl : String → Option LazadaProduct) (urls : List String),
      (crawlByUrls crawl urls none).failed
        = urls.filter (fun u => (crawl u).isNone))
    ∧ (∀ (crawl : String → Option LazadaProduct) (urls : List String) (k : Nat),
      (crawlByUrls crawl urls (some k)).saved = false)
    ∧ (∀ (crawl : String → Option LazadaProduct) (discover : Category → List String)
        (cats : List Category),
      (crawlByCategories crawl discover cats none).saved = true)
    ∧ (∀ (crawl : String → Option LazadaProduct) (discover : Category → List String)
        (cats : List Category) (k : Nat),
      (crawlByCategories crawl discover cats (some k)).saved = false) := by
  refine ⟨?_, ?_, ?_, ?_, ?_⟩
  · intro crawl urls; rfl
  · intro crawl urls
    have := crawlUrlsLoop_failed crawl urls ([], [])
    simpa [crawlByUrls] using this
  · intro crawl urls k; rfl
  · intro crawl discover cats; rfl
  · intro crawl discover cats k; rfl

/-!  ## Lemmas about the captcha guard -/

theorem captchaWait_timeout_of_all (detect : Nat → Bool)
    (delays : Nat → {n : Nat // 2000 ≤ n ∧ n ≤ 3000})
    (hall : ∀ j, detect j = true) :
    ∀ (n i elapsed : Nat), 60000 - elapsed ≤ n →
      captchaWait detect delays i elapsed = Except.error "CAPTCHA solving timeout" := by
  intro n
  induction n with
  | zero =>
    intro i elapsed h
    rw [captchaWait]
    have hge : ¬ elapsed < 60000 := by omega
    simp [hge]
  | succ n ih =>
    intro i elapsed h
    rw [captchaWait]
    by_cases hlt : elapsed < 60000
    · simp only [hlt, if_true, hall i]
      apply ih
      have := (delays i).2.1
      omega
    · simp [hlt]

/-- A fixed concrete delay sequence satisfying the 2-3 second bound, used to
instantiate the guard on concrete runs. -/
def twoSecDelays : Nat → {n : Nat // 2000 ≤ n ∧ n ≤ 3000} := fun _ => ⟨2000, by omega⟩

/-- A concrete page environment whose captcha never clears: detection fires
on the first check and every poll inside the wait loop reports the captcha
still present. -/
def captchaStuckEnv : PageEnv :=
  { navOk := true
    captchaFirst := true
    captchaDetect := fun _ => true
    captchaDelays := twoSecDelays
    hasRoot := true
    selText := fun _ => ""
    originBlockText := ""
    salePriceElText := ""
    genericPriceText := ""
    deliveryText := ""
    descParagraphs := []
    jsonLd := none }

/-- C3: when the first captcha check is false the guard returns immediately
with zero polls of the wait loop; when detection stays true for every poll,
the 60-second deadline expires and the guard fails with the
captcha-timeout error; `crawlProduct` turns that error into a per-target
failure (`none`) instead of propagating it. -/
theorem captcha_guard_contract :
    (∀ (detect : Nat → Bool) (delays : Nat → {n : Nat // 2000 ≤ n ∧ n ≤ 3000}),
      ensureNoCaptcha false detect delays = Except.ok 0)
    ∧ (∀ (detect : Nat → Bool) (delays : Nat → {n : Nat // 2000 ≤ n ∧ n ≤ 3000}),
      (∀ j, detect j = true) →
      ensureNoCaptcha true detect delays = Except.error "CAPTCHA solving timeout")
    ∧ (∀ (env : PageEnv) (url crawledAt : String) (executionTime : Nat),
      env.navOk = true → env.captchaFirst = true →
      (∀ j, env.captchaDetect j = true) →
      crawlProduct env url crawledAt executionTime = none) := by
  refine ⟨?_, ?_, ?_⟩
  · intro detect delays; rfl
  · intro detect delays hall
    unfold ensureNoCaptcha
    simp only [if_true]
    exact captchaWait_timeout_of_all detect delays hall 60000 0 0 (by omega)
  · intro env url crawledAt executionTime hnav hfirst hall
    unfold crawlProduct
    rw [hnav]
    have hguard : ensureNoCaptcha env.captchaFirst env.captchaDetect env.captchaDelays
        = Except.error "CAPTCHA solving timeout" := by
      rw [hfirst]
      unfold ensureNoCaptcha
      simp only [if_true]
      exact captchaWait_timeout_of_all _ _ hall 60000 0 0 (by omega)
    rw [hguard]
    simp

theorem captcha_guard_contract_witness :
    ensureNoCaptcha false (fun _ => true) twoSecDelays = Except.ok 0
    ∧ ensureNoCaptcha true (fun _ => true) twoSecDelays
      = Except.error "CAPTCHA solving timeout"
    ∧ crawlProduct captchaStuckEnv "https://www.lazada.vn/products/a" "t" 0 = none :=
  ⟨captcha_guard_contract.1 (fun _ => true) twoSecDelays,
    captcha_guard_contract.2.1 (fun _ => true) twoSecDelays (fun _ => rfl),
    captcha_guard_contract.2.2 captchaStuckEnv "https://www.lazada.vn/products/a" "t" 0
      rfl rfl (fun _ => rfl)⟩

/-- C4: the title is the first primary-selector match whose trimmed text
is non-empty and longer than the sanity threshold, in the fixed selector
order; when every primary selector fails the test, the final title of the
assembled record is the structured-data name (and hence empty when that is
empty too). -/
theorem title_first_match_and_fallback (selText : String → String)
    (jsonLdData : JsonLdResult) :
    (getTitle selText
      = ((titleSelectors.map (fun s => jsTrim (selText s))).find? titleOk).getD "")
    ∧ ((∀ s ∈ titleSelectors, titleOk (jsTrim (selText s)) = false) →
      ∀ (url regularPrice salePrice deliveryTime description crawledAt : String)
        (executionTime : Nat),
      (mkProduct url (getTitle selText) regularPrice salePrice deliveryTime
        description jsonLdData crawledAt executionTime).pdp_title_value
        = jsonLdData.name) := by
  constructor
  · simp only [getTitle, titleSelectors, List.map, titleLoop, List.find?]
    by_cases h1 : titleOk (jsTrim (selText ".pdp-product-title")) <;>
    by_cases h2 : titleOk (jsTrim (selText "h1")) <;>
    by_cases h3 : titleOk (jsTrim (selText ".pdp-mod-product-badge-title")) <;>
    simp [h1, h2, h3, titleLoop]
  · intro hall url regularPrice salePrice deliveryTime description crawledAt executionTime
    have e1 := hall ".pdp-product-title" (by simp [titleSelectors])
    have e2 := hall "h1" (by simp [titleSelectors])
    have e3 := hall ".pdp-mod-product-badge-title" (by simp [titleSelectors])
    have h0 : getTitle selText = "" := by
      simp [getTitle, titleSelectors, titleLoop, e1, e2, e3]
    simp [mkProduct, jsOr, h0]

theorem title_fallback_witness :
    (∀ s ∈ titleSelectors, titleOk (jsTrim ((fun _ => "short") s)) = false)
    ∧ (mkProduct "u" (getTitle (fun _ => "short")) "" "" "" ""
        (getJsonLdData (some ⟨"Foo Product", "", "", none, "", ""⟩)) "t" 0).pdp_title_value
      = "Foo Product" := by
  have h := (title_first_match_and_fallback (fun _ => "short")
    (getJsonLdData (some ⟨"Foo Product", "", "", none, "", ""⟩))).2 (by decide)
    "u" "" "" "" "" "t" 0
  exact ⟨by decide, h.trans (by decide)⟩

/-- C5: price normalization strips the currency sign, thousands separators
and whitespace, leaving a bare digit string — on the spec's inputs it maps
"271.043₫" to "271043" and "548.772 ₫" to "548772" — and in the
pattern-scan fallback the first match becomes the sale price while a
second match, when present, becomes the regular price. -/
theorem price_normalization (origin spEl generic : String) :
    (stripPrice "271.043₫" = "271043")
    ∧ (stripPrice "548.772 ₫" = "548772")
    ∧ (∀ (m0 : List Char) (ms : List (List Char)),
      (if origin ≠ "" then jsTrim ⟨stripPriceRp origin.toList⟩ else "") = "" →
      (if spEl ≠ "" then jsTrim ⟨stripPriceRp spEl.toList⟩ else "") = "" →
      priceMatches generic.toList = m0 :: ms →
      (getPrices origin spEl generic).salePrice = stripPrice ⟨m0⟩
      ∧ (getPrices origin spEl generic).regularPrice
        = (match ms with | [] => "" | m1 :: _ => stripPrice ⟨m1⟩)) := by
  refine ⟨by decide, by decide, ?_⟩
  intro m0 ms h1 h2 h3
  simp only [getPrices]
  rw [h1, h2, h3]
  cases ms with
  | nil => simp
  | cons m1 t => simp

theorem price_normalization_witness :
    priceMatches "271.043₫548.772 ₫-51%".toList
      = ["271.043₫".toList, "548.772 ₫".toList]
    ∧ (getPrices "" "" "271.043₫548.772 ₫-51%").salePrice = "271043"
    ∧ (getPrices "" "" "271.043₫548.772 ₫-51%").regularPrice = "548772" := by
  have h := (price_normalization "" "" "271.043₫548.772 ₫-51%").2.2
    "271.043₫".toList ["548.772 ₫".toList] (by decide) (by decide) (by decide)
  exact ⟨by decide, h.1.trans (by decide), h.2.trans (by decide)⟩

/-- C7: the stock field is "1" exactly when a parsed structured-data block
is present whose availability value contains "InStock" or
"LimitedAvailability"; an absent or unparseable block defaults to "0"; the
record's `vosa` field carries this value unchanged. -/
theorem stock_from_availability (parsed : Option JsonLdRaw) :
    ((getJsonLdData parsed).stock = "1"
      ↔ ∃ jd, parsed = some jd
          ∧ (jsIncludes jd.availability "InStock" = true
            ∨ jsIncludes jd.availability "LimitedAvailability" = true))
    ∧ (getJsonLdData none).stock = "0"
    ∧ (∀ (url title rp sp dt d : String) (j : JsonLdResult) (ca : String) (et : Nat),
      (mkProduct url title rp sp dt d j ca et).vosa = j.stock) := by
  refine ⟨?_, rfl, fun url title rp sp dt d j ca et => rfl⟩
  cases parsed with
  | none =>
    simp only [getJsonLdData, jsonLdDefault]
    constructor
    · intro h; exact absurd h (by decide)
    · rintro ⟨jd, hjd, _⟩; exact absurd hjd (by simp)
  | some jd =>
    have hstock : (getJsonLdData (some jd)).stock
        = (if jsIncludes jd.availability "InStock" = true
            ∨ jsIncludes jd.availability "LimitedAvailability" = true
          then "1" else "0") := by
      simp only [getJsonLdData]
      by_cases hav : jd.availability = ""
      · have i1 : jsIncludes "" "InStock" = false := rfl
        have i2 : jsIncludes "" "LimitedAvailability" = false := rfl
        simp [hav, i1, i2]
      · simp [hav]
    constructor
    · intro h
      rw [hstock] at h
      refine ⟨jd, rfl, ?_⟩
      by_contra hno
      rw [if_neg hno] at h
      exact absurd h (by decide)
    · rintro ⟨jd', hjd, hc⟩
      injection hjd with hjd'
      subst hjd'
      rw [hstock, if_pos hc]

theorem stock_from_availability_witness :
    (getJsonLdData (some ⟨"", "", "", none, "https://schema.org/InStock", ""⟩)).stock = "1"
    ∧ (getJsonLdData none).stock = "0" := by
  refine ⟨?_, (stock_from_availability none).2.1⟩
  exact (stock_from_availability
    (some ⟨"", "", "", none, "https://schema.org/InStock", ""⟩)).1.mpr
    ⟨_, rfl, Or.inl (by decide)⟩

/-- C9: a record's image-count field is "1" exactly when its image-URL
field is non-empty, and "0" exactly when it is empty. -/
theorem image_count_consistency (url title rp sp dt d : String) (j : JsonLdResult)
    (ca : String) (et : Nat) :
    ((mkProduct url title rp sp dt d j ca et).pdp_image_count = "1"
      ↔ (mkProduct url title rp sp dt d j ca et).pdp_image_url ≠ "")
    ∧ ((mkProduct url title rp sp dt d j ca et).pdp_image_count = "0"
      ↔ (mkProduct url title rp sp dt d j ca et).pdp_image_url = "") := by
  simp only [mkProduct]
  by_cases h : j.imageUrl = ""
  · simp [h]
  · simp [h]

theorem image_count_consistency_witness :
    (mkProduct "u" "" "" "" "" "" jsonLdDefault "t" 0).pdp_image_count = "0" :=
  (image_count_consistency "u" "" "" "" "" "" jsonLdDefault "t" 0).2.mpr (by decide)

theorem getPrices_all_empty (origin spEl generic : String)
    (h1 : (if origin ≠ "" then jsTrim ⟨stripPriceRp origin.toList⟩ else "") = "")
    (h2 : (if spEl ≠ "" then jsTrim ⟨stripPriceRp spEl.toList⟩ else "") = "")
    (h3 : priceMatches generic.toList = []) :
    getPrices origin spEl generic = ⟨"", ""⟩ := by
  simp only [getPrices]
  rw [h1, h2, h3]
  simp

/-- C10: the sale price of an assembled record is always the DOM-extracted
sale price (no structured-data fallback); when both DOM price strategies
yield nothing, the sale price is empty even though the regular price falls
back to the structured-data price. -/
theorem sale_price_never_structured (url title dt d : String) (j : JsonLdResult)
    (ca : String) (et : Nat) (origin spEl generic : String) :
    (∀ rp sp : String,
      (mkProduct url title rp sp dt d j ca et).price_sp = sp)
    ∧ ((if origin ≠ "" then jsTrim ⟨stripPriceRp origin.toList⟩ else "") = "" →
      (if spEl ≠ "" then jsTrim ⟨stripPriceRp spEl.toList⟩ else "") = "" →
      priceMatches generic.toList = [] →
      (mkProduct url title (getPrices origin spEl generic).regularPrice
        (getPrices origin spEl generic).salePrice dt d j ca et).price_sp = ""
      ∧ (mkProduct url title (getPrices origin spEl generic).regularPrice
        (getPrices origin spEl generic).salePrice dt d j ca et).price_rp
        = j.priceFromJson) := by
  constructor
  · intro rp sp; rfl
  · intro h1 h2 h3
    rw [getPrices_all_empty origin spEl generic h1 h2 h3]
    constructor
    · rfl
    · simp [mkProduct, jsOr]

theorem sale_price_never_structured_witness :
    (mkProduct "u" "" (getPrices "" "" "").regularPrice
      (getPrices "" "" "").salePrice "" ""
      { jsonLdDefault with priceFromJson := "12345" } "t" 0).price_sp = ""
    ∧ (mkProduct "u" "" (getPrices "" "" "").regularPrice
      (getPrices "" "" "").salePrice "" ""
      { jsonLdDefault with priceFromJson := "12345" } "t" 0).price_rp = "12345" := by
  have h := (sale_price_never_structured "u" "" "" ""
    { jsonLdDefault with priceFromJson := "12345" } "t" 0 "" "" "").2
    (by decide) (by decide) (by decide)
  exact ⟨h.1, h.2.trans (by decide)⟩

end Lazada
